import Mathlib

/-!
Verification of the reaction-adjustment core of the VCS multiphase
chemical-equilibrium solver (`vcs_rxnadj.cpp`, namespace `VCSnonideal`,
class `VCS_SOLVE`).

The embedding is a shallow one over exact rational arithmetic: the C++
`double` fields of the solver state become `ℚ`, the raw arrays become
total functions from indices, and the loops become folds over
`List.range`.  The routines translated here are
`vcs_Hessian_actCoeff_diag`, `vcs_Hessian_diag_adj`, `vcs_rxn_adj_cg`
(including the degenerate single-species-phase elimination branch) and
`vcs_line_search`.  `exit(-1)` is modelled as returning `none`.
-/

namespace VCSnonideal

/-- The slice of the `VCS_SOLVE` object state read and written by the
routines of `vcs_rxnadj.cpp`.  Arrays are modelled as total functions;
the valid index ranges are `m_numComponents`, `m_numRxnRdc`, `NPhase`
and `nSpecies` (the total species count, used to express the phase
mole-balance invariant). -/
structure VcsState where
  m_numComponents : ℕ
  m_numRxnRdc : ℕ
  NPhase : ℕ
  nSpecies : ℕ
  ir : ℕ → ℕ
  soln : ℕ → ℚ
  ds : ℕ → ℚ
  dg : ℕ → ℚ
  sc : ℕ → ℕ → ℚ
  DnPhase : ℕ → ℕ → ℚ
  SSPhase : ℕ → Bool
  phaseSingleSpecies : ℕ → Bool
  TPhMoles : ℕ → ℚ
  PhaseID : ℕ → ℕ
  spStatus : ℕ → ℤ
  m_numRxnMinorZeroed : ℤ
  tolmaj2 : ℚ
  dLnActCoeffdMolNum : ℕ → ℕ → ℚ

/-- Modelled from the spec: the species-status flags `VCS_SPECIES_MAJOR`
and `VCS_SPECIES_MINOR` are declared in `vcs_solve.h`, which is not part
of the sources; the spec describes the status as an enumeration
MAJOR / MINOR / ZEROED where the test `spStatus <= VCS_SPECIES_MINOR`
selects the MINOR-or-below states.  Only the relative order matters
here. -/
def VCS_SPECIES_MAJOR : ℤ := 1

/-- Modelled from the spec: see `VCS_SPECIES_MAJOR`. -/
def VCS_SPECIES_MINOR : ℤ := 0

/-- `VCS_SOLVE::vcs_Hessian_actCoeff_diag(irxn)`: the nonideal diagonal
Hessian contribution.  Starts from the self term
`dLnActCoeffdMolNum[kspec][kspec]` and accumulates, over components `l`
not in single-species phases, the same-phase component pairs and the
cross terms with `kspec`, exactly as the two nested loops of the source
do. -/
def vcs_Hessian_actCoeff_diag (st : VcsState) (irxn : ℕ) : ℚ :=
  (List.range st.m_numComponents).foldl
    (fun s l =>
      if ¬ st.SSPhase l then
        (if st.PhaseID (st.ir irxn) = st.PhaseID l then
          ((List.range st.m_numComponents).foldl
            (fun s2 k => if st.PhaseID k = st.PhaseID l then
                s2 + st.sc irxn k * st.sc irxn l * st.dLnActCoeffdMolNum k l
              else s2) s)
          + st.sc irxn l * (st.dLnActCoeffdMolNum (st.ir irxn) l
                            + st.dLnActCoeffdMolNum l (st.ir irxn))
        else
          (List.range st.m_numComponents).foldl
            (fun s2 k => if st.PhaseID k = st.PhaseID l then
                s2 + st.sc irxn k * st.sc irxn l * st.dLnActCoeffdMolNum k l
              else s2) s)
      else s)
    (st.dLnActCoeffdMolNum (st.ir irxn) (st.ir irxn))

/-- `VCS_SOLVE::vcs_Hessian_diag_adj(irxn, hessianDiag_Ideal)`: combines
the ideal diagonal with the activity-coefficient correction, clamping a
large negative correction to `0.6666 * hessianDiag_Ideal`.  The
`exit(-1)` taken when `hessianDiag_Ideal <= 0` is modelled as `none`. -/
def vcs_Hessian_diag_adj (st : VcsState) (irxn : ℕ)
    (hessianDiag_Ideal : ℚ) : Option ℚ :=
  if hessianDiag_Ideal ≤ 0 then none
  else some
    (if 0 ≤ vcs_Hessian_actCoeff_diag st irxn then
      hessianDiag_Ideal + vcs_Hessian_actCoeff_diag st irxn
    else if |vcs_Hessian_actCoeff_diag st irxn|
        < (6666/10000) * hessianDiag_Ideal then
      hessianDiag_Ideal + vcs_Hessian_actCoeff_diag st irxn
    else
      hessianDiag_Ideal - (6666/10000) * hessianDiag_Ideal)

/-- A state whose only nonzero datum is a large negative
activity-coefficient self term, exercising the clamped branch of the
Hessian diagonal corrector. -/
def baseState : VcsState where
  m_numComponents := 0
  m_numRxnRdc := 0
  NPhase := 0
  nSpecies := 0
  ir := fun i => i
  soln := fun _ => 0
  ds := fun _ => 0
  dg := fun _ => 0
  sc := fun _ _ => 0
  DnPhase := fun _ _ => 0
  SSPhase := fun _ => true
  phaseSingleSpecies := fun _ => true
  TPhMoles := fun _ => 0
  PhaseID := fun i => i
  spStatus := fun _ => 1
  m_numRxnMinorZeroed := 0
  tolmaj2 := 1/2
  dLnActCoeffdMolNum := fun _ _ => 0

/-- Witness state for C1: activity-coefficient correction `-10`. -/
def stC1 : VcsState := { baseState with dLnActCoeffdMolNum := fun _ _ => -10 }

/-- Counterexample state for C3: activity-coefficient correction
`-0.66665`, which lies between the source literal `0.6666` and the
spec's `2/3`. -/
def stC3 : VcsState :=
  { baseState with dLnActCoeffdMolNum := fun _ _ => -(66665/100000) }

/-- Witness state for the amended C3. -/
def stC3w : VcsState :=
  { baseState with dLnActCoeffdMolNum := fun _ _ => -(66665/100000) }

/-- Witness state for C8. -/
def stC8w : VcsState := { baseState with dLnActCoeffdMolNum := fun _ _ => 5 }

/-- C1: for every reaction index and every caller-supplied ideal
diagonal strictly greater than 0, any value returned by
`vcs_Hessian_diag_adj` is at least `(1/3)` of the ideal diagonal, and in
particular strictly positive. -/
theorem hessian_diag_adj_lower_bound (st : VcsState) (irxn : ℕ)
    (hid d : ℚ) (hpos : 0 < hid)
    (hret : vcs_Hessian_diag_adj st irxn hid = some d) :
    (1/3) * hid ≤ d ∧ 0 < d := by
  unfold vcs_Hessian_diag_adj at hret
  rw [if_neg (not_le.2 hpos)] at hret
  set h := vcs_Hessian_actCoeff_diag st irxn with hh
  rcases Option.some_injective _ hret.symm with rfl
  split_ifs with h1 h2
  · constructor <;> linarith
  · have hneg : h < 0 := lt_of_not_le h1
    rw [abs_of_neg hneg] at h2
    constructor <;> linarith
  · constructor <;> linarith

/-- C1 witness: at `stC1` with ideal diagonal `3` the corrector returns
`3 - 0.6666 * 3 = 1.0002`, which is at least `1` and positive. -/
theorem hessian_diag_adj_lower_bound_witness :
    (1/3 : ℚ) * 3 ≤ 10002/10000 ∧ (0 : ℚ) < 10002/10000 :=
  hessian_diag_adj_lower_bound stC1 0 3 (10002/10000) (by norm_num)
    (by norm_num [vcs_Hessian_diag_adj, vcs_Hessian_actCoeff_diag, stC1,
      baseState])

/-- C3 counterexample: at `stC3` the correction is `h = -0.66665` with
`|h| < (2/3) * 1`, so the claim predicts the return value
`1 + h = 0.33335`; the code instead clamps (its threshold is the literal
`0.6666`, not `2/3`) and returns `1 - 0.6666 = 0.3334`. -/
theorem hessian_diag_adj_two_thirds_counterexample :
    vcs_Hessian_actCoeff_diag stC3 0 = -(66665/100000) ∧
    (-(66665/100000) : ℚ) < 0 ∧
    |(-(66665/100000) : ℚ)| < (2/3) * 1 ∧
    vcs_Hessian_diag_adj stC3 0 1 = some (3334/10000) ∧
    ((3334/10000 : ℚ) = 1 + -(66665/100000) → False) := by
  refine ⟨by simp [vcs_Hessian_actCoeff_diag, stC3, baseState],
    by norm_num, by rw [abs_of_neg (by norm_num)]; norm_num,
    by norm_num [vcs_Hessian_diag_adj, vcs_Hessian_actCoeff_diag, stC3,
      baseState, abs_of_neg], by norm_num⟩

/-- C3 amended: with `h` the activity-coefficient correction and a
positive ideal diagonal, `vcs_Hessian_diag_adj` returns `ideal + h` when
`h ≥ 0`; returns `ideal + h` when `h < 0` and `|h| < 0.6666 * ideal`
(the source literal, not `2/3`); and otherwise returns
`ideal - 0.6666 * ideal`. -/
theorem hessian_diag_adj_branches (st : VcsState) (irxn : ℕ) (hid : ℚ)
    (hpos : 0 < hid) :
    (0 ≤ vcs_Hessian_actCoeff_diag st irxn →
      vcs_Hessian_diag_adj st irxn hid
        = some (hid + vcs_Hessian_actCoeff_diag st irxn)) ∧
    (vcs_Hessian_actCoeff_diag st irxn < 0 →
      |vcs_Hessian_actCoeff_diag st irxn| < (6666/10000) * hid →
      vcs_Hessian_diag_adj st irxn hid
        = some (hid + vcs_Hessian_actCoeff_diag st irxn)) ∧
    (vcs_Hessian_actCoeff_diag st irxn < 0 →
      ¬ |vcs_Hessian_actCoeff_diag st irxn| < (6666/10000) * hid →
      vcs_Hessian_diag_adj st irxn hid
        = some (hid - (6666/10000) * hid)) := by
  unfold vcs_Hessian_diag_adj
  rw [if_neg (not_le.2 hpos)]
  refine ⟨fun h1 => ?_, fun h1 h2 => ?_, fun h1 h2 => ?_⟩
  · rw [if_pos h1]
  · rw [if_neg (not_le.2 h1), if_pos h2]
  · rw [if_neg (not_le.2 h1), if_neg h2]

/-- C3 amended witness: at `stC3w` with ideal diagonal `1` the
correction is `-0.66665 < 0` with `|h| ≥ 0.6666`, and the corrector
returns `1 - 0.6666 * 1`. -/
theorem hessian_diag_adj_branches_witness :
    vcs_Hessian_diag_adj stC3w 0 1 = some (1 - (6666/10000) * 1) :=
  (hessian_diag_adj_branches stC3w 0 1 (by norm_num)).2.2
    (by norm_num [vcs_Hessian_actCoeff_diag, stC3w, baseState])
    (by norm_num [vcs_Hessian_actCoeff_diag, stC3w, baseState, abs_of_neg])

/-- C8: `vcs_Hessian_diag_adj` aborts (modelled as `none`) exactly when
the caller-supplied ideal diagonal is `≤ 0`; for every positive ideal
diagonal it returns normally with a value. -/
theorem hessian_diag_adj_abort_iff (st : VcsState) (irxn : ℕ) (hid : ℚ) :
    vcs_Hessian_diag_adj st irxn hid = none ↔ hid ≤ 0 := by
  unfold vcs_Hessian_diag_adj
  split_ifs with h
  · simp [h]
  · simp [h]

/-- C8 witness: at `stC8w` the corrector aborts on the nonpositive ideal
diagonal `-1`. -/
theorem hessian_diag_adj_abort_iff_witness :
    vcs_Hessian_diag_adj stC8w 0 (-1) = none :=
  (hessian_diag_adj_abort_iff stC8w 0 (-1)).2 (by norm_num)

/-- The bisection loop of `VCS_SOLVE::vcs_line_search` (`for (its = 0;
its < MAXITS; its++)` with `MAXITS = 10`): the step is halved, the
free-energy oracle `g` is queried at the halved step, and the loop exits
on a same-sign value, on sufficient decay (with linear interpolation on
a sign flip), or when the iteration budget runs out, returning the last
trial step.  `g dx` stands for `deltaG_Recalc_Rxn` evaluated at the
trial composition `molNumBase + dx * stoichiometry`. -/
def lineSearchBisect (g : ℚ → ℚ) (deltaGOrig forig dx_orig : ℚ) :
    ℕ → ℚ → ℚ
  | 0, dx => dx
  | its + 1, dx =>
    if g (dx * (1/2)) * deltaGOrig > 0 then dx * (1/2)
    else if |g (dx * (1/2))| / forig
        < 1 - (1/10) * (dx * (1/2)) / dx_orig then
      (if g (dx * (1/2)) * deltaGOrig < 0 then
        -deltaGOrig / ((g (dx * (1/2)) - deltaGOrig) / (dx * (1/2)))
      else dx * (1/2))
    else lineSearchBisect g deltaGOrig forig dx_orig its (dx * (1/2))

/-- `VCS_SOLVE::vcs_line_search(irxn, dx_orig)`, with the reaction's
free-energy evaluation abstracted into the oracle `g : ℚ → ℚ`
(`g 0` is `deltaGOrig`, `g dx_orig` is `deltaG1`).  The guard chain, the
full-step acceptance, the 80%-decay interpolation (threshold
`0.8 * (|deltaGOrig| + 1.0E-15)`) and the handoff to the bisection loop
follow the source line by line. -/
def vcs_line_search (g : ℚ → ℚ) (dx_orig : ℚ) : ℚ :=
  if g 0 > 0 ∧ dx_orig > 0 then 0
  else if g 0 < 0 ∧ dx_orig < 0 then 0
  else if g 0 = 0 then 0
  else if dx_orig = 0 then 0
  else if g dx_orig * g 0 > 0 then dx_orig
  else if |g dx_orig| < (8/10) * (|g 0| + 1/1000000000000000) then
    (if g dx_orig * g 0 < 0 then
      -(g 0) / ((g dx_orig - g 0) / dx_orig)
    else dx_orig)
  else lineSearchBisect g (g 0) (|g 0| + 1/1000000000000000) dx_orig 10 dx_orig

/-- The ideal-mixing diagonal curvature `s` built by the regular branch
of `VCS_SOLVE::vcs_rxn_adj_cg` (lines 137-147): `1/soln[kspec]` (or 0
for a single-species phase), plus `sc^2/soln[j]` over components not in
single-species phases, minus `DnPhase^2/TPhMoles[j]` over multispecies
phases with positive total moles. -/
def idealDiag (st : VcsState) (irxn : ℕ) : ℚ :=
  (List.range st.NPhase).foldl
    (fun s j =>
      if ¬ st.phaseSingleSpecies j then
        (if st.TPhMoles j > 0 then
          s - st.DnPhase irxn j * st.DnPhase irxn j / st.TPhMoles j
        else s)
      else s)
    ((List.range st.m_numComponents).foldl
      (fun s j =>
        if ¬ st.SSPhase j then s + st.sc irxn j * st.sc irxn j / st.soln j
        else s)
      (if st.SSPhase (st.ir irxn) then 0 else 1 / st.soln (st.ir irxn)))

/-- The bound-finding loop of the degenerate branch for `dg[irxn] > 0`
(lines 162-173): starting from `dss = soln[kspec], k = kspec`, scan the
components with positive stoichiometric coefficient and keep the
strictly smallest `soln[j] / sc[irxn][j]`, recording its index.  The
caller negates the first component. -/
def degenBoundPos (st : VcsState) (irxn kspec : ℕ) : ℚ × ℕ :=
  (List.range st.m_numComponents).foldl
    (fun p j =>
      if st.sc irxn j > 0 ∧ st.soln j / st.sc irxn j < p.1 then
        (st.soln j / st.sc irxn j, j)
      else p)
    (st.soln kspec, kspec)

/-- The bound-finding loop of the degenerate branch for the `else` case
`dg[irxn] <= 0` (lines 175-186): starting from `dss = 1.0e10` and the
incoming value of the loop-persistent variable `k`, scan the components
with negative stoichiometric coefficient and keep the strictly smallest
`-soln[j] / sc[irxn][j]`, recording its index. -/
def degenBoundNeg (st : VcsState) (irxn k : ℕ) : ℚ × ℕ :=
  (List.range st.m_numComponents).foldl
    (fun p j =>
      if st.sc irxn j < 0 ∧ -st.soln j / st.sc irxn j < p.1 then
        (-st.soln j / st.sc irxn j, j)
      else p)
    (10000000000, k)

/-- The signed extent `dss` and zeroed-species index `k` produced by the
degenerate branch: the negated positive bound when `dg[irxn] > 0`,
otherwise the negative-direction bound. -/
def degenStep (st : VcsState) (irxn k : ℕ) : ℚ × ℕ :=
  if st.dg irxn > 0 then
    (-(degenBoundPos st irxn (st.ir irxn)).1,
      (degenBoundPos st irxn (st.ir irxn)).2)
  else degenBoundNeg st irxn k

/-- One paired update `soln[i] += delta; TPhMoles[PhaseID[i]] += delta`,
as performed by the elimination branch of `vcs_rxn_adj_cg`. -/
def addMoles (st : VcsState) (i : ℕ) (delta : ℚ) : VcsState :=
  { st with
    soln := Function.update st.soln i (st.soln i + delta)
    TPhMoles := Function.update st.TPhMoles (st.PhaseID i)
      (st.TPhMoles (st.PhaseID i) + delta) }

/-- The state mutation of the degenerate elimination branch (lines
196-203): add `dss` to the noncomponent species and its phase total,
add `dss * sc[irxn][j]` to every component and its phase total, then
zero out the mole number of species `k` and the total moles of its
phase. -/
def applyElim (st : VcsState) (irxn kspec : ℕ) (dss : ℚ) (k : ℕ) :
    VcsState :=
  let st3 := (List.range st.m_numComponents).foldl
    (fun acc j => addMoles acc j (dss * st.sc irxn j))
    (addMoles st kspec dss)
  { st3 with
    soln := Function.update st3.soln k 0
    TPhMoles := Function.update st3.TPhMoles (st3.PhaseID k) 0 }

/-- One iteration of the reaction loop of `VCS_SOLVE::vcs_rxn_adj_cg`
for reaction `irxn`, carrying the loop-persistent local variable `k`.
`Sum.inl` is the fall-through to the next reaction, `Sum.inr` the
immediate `return soldel` of the elimination branch. -/
def rxnAdjBody (st : VcsState) (k irxn : ℕ) :
    (VcsState × ℕ) ⊕ (ℕ × VcsState) :=
  if st.soln (st.ir irxn) = 0 ∧ ¬ st.SSPhase (st.ir irxn) then
    (if st.dg irxn < -(1/10000) then
      Sum.inl ({ st with
        ds := Function.update st.ds (st.ir irxn) (1/10000000000)
        spStatus := Function.update st.spStatus irxn VCS_SPECIES_MAJOR
        m_numRxnMinorZeroed := st.m_numRxnMinorZeroed - 1 }, k)
    else
      Sum.inl ({ st with ds := Function.update st.ds (st.ir irxn) 0 }, k))
  else if |st.dg irxn| ≤ st.tolmaj2 then Sum.inl (st, k)
  else if st.spStatus irxn ≤ VCS_SPECIES_MINOR ∧ st.dg irxn ≥ 0 then
    Sum.inl (st, k)
  else if idealDiag st irxn ≠ 0 then
    Sum.inl ({ st with
      ds := Function.update st.ds (st.ir irxn)
        (-(st.dg irxn) / idealDiag st irxn) }, k)
  else if (degenStep st irxn k).1 ≠ 0 then
    Sum.inr ((if (degenStep st irxn k).2 ≠ st.ir irxn then 2 else 1),
      applyElim st irxn (st.ir irxn) (degenStep st irxn k).1
        (degenStep st irxn k).2)
  else Sum.inl (st, (degenStep st irxn k).2)

/-- The reaction loop of `vcs_rxn_adj_cg` over a list of reaction
indices: fall-throughs thread the state and the variable `k`; the
elimination branch returns immediately, skipping the remaining
reactions; an exhausted list returns the untouched `soldel = 0`. -/
def vcs_rxn_adj_loop : VcsState → ℕ → List ℕ → ℕ × VcsState
  | st, _, [] => (0, st)
  | st, k, irxn :: rest =>
    match rxnAdjBody st k irxn with
    | Sum.inl (st2, k2) => vcs_rxn_adj_loop st2 k2 rest
    | Sum.inr r => r

/-- `VCS_SOLVE::vcs_rxn_adj_cg()`: loop over the reactions
`0 .. m_numRxnRdc - 1` with `k` initialized to 0, returning the result
code together with the final state. -/
def vcs_rxn_adj_cg (st : VcsState) : ℕ × VcsState :=
  vcs_rxn_adj_loop st 0 (List.range st.m_numRxnRdc)

/-- The common shape of the two bound-finding loops: scan indices
`0 .. n-1`, and replace the running pair `(value, index)` whenever the
candidate passes the filter `C` and its score `g` is strictly below the
running value. -/
def selMinFold (g : ℕ → ℚ) (C : ℕ → Prop) [DecidablePred C] (a : ℚ)
    (k0 : ℕ) (n : ℕ) : ℚ × ℕ :=
  (List.range n).foldl
    (fun p j => if C j ∧ g j < p.1 then (g j, j) else p) (a, k0)

/-- Unfolding `selMinFold` one step at the top index. -/
theorem selMinFold_succ (g : ℕ → ℚ) (C : ℕ → Prop) [DecidablePred C]
    (a : ℚ) (k0 : ℕ) (n : ℕ) :
    selMinFold g C a k0 (n + 1)
      = (if C n ∧ g n < (selMinFold g C a k0 n).1 then (g n, n)
         else selMinFold g C a k0 n) := by
  simp [selMinFold, List.range_succ]

/-- The bound-finding loops compute the minimum of the initial value and
the filtered scores, and record the first index (in scan order) that
attains a strict improvement; ties keep the earlier record. -/
theorem selMinFold_spec (g : ℕ → ℚ) (C : ℕ → Prop) [DecidablePred C]
    (a : ℚ) (k0 : ℕ) : ∀ n : ℕ,
    (selMinFold g C a k0 n).1 ≤ a ∧
    (∀ j, j < n → C j → (selMinFold g C a k0 n).1 ≤ g j) ∧
    (selMinFold g C a k0 n = (a, k0) ∨
      ((selMinFold g C a k0 n).2 < n ∧ C (selMinFold g C a k0 n).2 ∧
        g (selMinFold g C a k0 n).2 = (selMinFold g C a k0 n).1 ∧
        (selMinFold g C a k0 n).1 < a ∧
        ∀ j, j < (selMinFold g C a k0 n).2 → C j →
          (selMinFold g C a k0 n).1 < g j)) := by
  intro n
  induction n with
  | zero =>
    refine ⟨le_refl _, fun j hj => absurd hj (Nat.not_lt_zero j), Or.inl rfl⟩
  | succ m ih =>
    obtain ⟨ih1, ih2, ih3⟩ := ih
    rw [selMinFold_succ]
    by_cases h : C m ∧ g m < (selMinFold g C a k0 m).1
    · rw [if_pos h]
      refine ⟨le_of_lt (lt_of_lt_of_le h.2 ih1), ?_, Or.inr ?_⟩
      · intro j hj hc
        rcases Nat.lt_succ_iff_lt_or_eq.1 hj with hj' | rfl
        · exact le_of_lt (lt_of_lt_of_le h.2 (ih2 j hj' hc))
        · exact le_refl _
      · refine ⟨Nat.lt_succ_self m, h.1, rfl,
          lt_of_lt_of_le h.2 ih1, fun j hj hc => ?_⟩
        exact lt_of_lt_of_le h.2 (ih2 j hj hc)
    · rw [if_neg h]
      refine ⟨ih1, ?_, ?_⟩
      · intro j hj hc
        rcases Nat.lt_succ_iff_lt_or_eq.1 hj with hj' | rfl
        · exact ih2 j hj' hc
        · by_contra hlt
          exact h ⟨hc, lt_of_not_le hlt⟩
      · rcases ih3 with h3 | h3
        · exact Or.inl h3
        · exact Or.inr ⟨Nat.lt_succ_of_lt h3.1, h3.2.1, h3.2.2.1,
            h3.2.2.2.1, h3.2.2.2.2⟩

/-- `degenBoundPos` is an instance of the generic scan, filtering on
positive stoichiometric coefficients with score `soln j / sc[irxn][j]`
and initial candidate `(soln[kspec], kspec)`. -/
theorem degenBoundPos_eq (st : VcsState) (irxn kspec : ℕ) :
    degenBoundPos st irxn kspec
      = selMinFold (fun j => st.soln j / st.sc irxn j)
          (fun j => st.sc irxn j > 0) (st.soln kspec) kspec
          st.m_numComponents := rfl

/-- `degenBoundNeg` is an instance of the generic scan, filtering on
negative stoichiometric coefficients with score `-soln j / sc[irxn][j]`
and initial candidate `(1.0e10, k)`. -/
theorem degenBoundNeg_eq (st : VcsState) (irxn k : ℕ) :
    degenBoundNeg st irxn k
      = selMinFold (fun j => -st.soln j / st.sc irxn j)
          (fun j => st.sc irxn j < 0) 10000000000 k
          st.m_numComponents := rfl

/-- Structure of the reaction loop: either it runs to the end of the
index list and reports the untouched result code 0, or some iteration's
body took the immediate-return branch and its result is the loop's
result. -/
theorem loop_zero_or_inr : ∀ (l : List ℕ) (st0 : VcsState) (k0 : ℕ),
    (vcs_rxn_adj_loop st0 k0 l).1 = 0 ∨
    ∃ (stm : VcsState) (km i : ℕ) (r : ℕ × VcsState),
      rxnAdjBody stm km i = Sum.inr r ∧ vcs_rxn_adj_loop st0 k0 l = r := by
  intro l
  induction l with
  | nil => intro st0 k0; exact Or.inl rfl
  | cons i rest ih =>
    intro st0 k0
    cases hb : rxnAdjBody st0 k0 i with
    | inl p =>
      have hstep : vcs_rxn_adj_loop st0 k0 (i :: rest)
          = vcs_rxn_adj_loop p.1 p.2 rest := by
        simp [vcs_rxn_adj_loop, hb]
      rw [hstep]
      exact ih p.1 p.2
    | inr r =>
      exact Or.inr ⟨st0, k0, i, r, hb, by simp [vcs_rxn_adj_loop, hb]⟩

/-- Witness state for C2 (the spec's scenario C): reaction entirely
among two single-species phases, `n_k = 5`, one component with
`sc = -1`, `n_c = 3`, `dg = -1`. -/
def stC2w : VcsState :=
  { baseState with
    m_numComponents := 1
    m_numRxnRdc := 1
    NPhase := 2
    nSpecies := 2
    ir := fun _ => 1
    soln := fun i => if i = 0 then 3 else if i = 1 then 5 else 0
    sc := fun _ j => if j = 0 then -1 else 0
    dg := fun _ => -1
    TPhMoles := fun p => if p = 0 then 3 else if p = 1 then 5 else 0 }

/-- C2: when the degenerate branch applies its elimination update, the
reaction loop returns at once — the remaining reactions in the list are
not processed — with code 1 when the zeroed species is the reaction's
own noncomponent species and 2 when the zeroed species is a component
(a component index is below `m_numComponents ≤ kspec`, hence distinct
from `kspec`); the zeroed species' mole number is 0 in the returned
state; and any run of the loop either ends with code 0 after exhausting
its reaction list or returns the immediate result of some iteration's
elimination branch. -/
theorem rxn_adj_cg_return_codes (st : VcsState) (k irxn : ℕ)
    (rest : List ℕ)
    (h1 : ¬ (st.soln (st.ir irxn) = 0 ∧ ¬ st.SSPhase (st.ir irxn)))
    (h2 : ¬ |st.dg irxn| ≤ st.tolmaj2)
    (h3 : ¬ (st.spStatus irxn ≤ VCS_SPECIES_MINOR ∧ st.dg irxn ≥ 0))
    (h4 : idealDiag st irxn = 0)
    (h5 : (degenStep st irxn k).1 ≠ 0)
    (hks : st.m_numComponents ≤ st.ir irxn) :
    vcs_rxn_adj_loop st k (irxn :: rest)
      = ((if (degenStep st irxn k).2 ≠ st.ir irxn then 2 else 1),
         applyElim st irxn (st.ir irxn) (degenStep st irxn k).1
           (degenStep st irxn k).2) ∧
    ((degenStep st irxn k).2 = st.ir irxn →
      (if (degenStep st irxn k).2 ≠ st.ir irxn then 2 else 1) = 1) ∧
    ((degenStep st irxn k).2 < st.m_numComponents →
      (if (degenStep st irxn k).2 ≠ st.ir irxn then 2 else 1) = 2) ∧
    (applyElim st irxn (st.ir irxn) (degenStep st irxn k).1
        (degenStep st irxn k).2).soln (degenStep st irxn k).2 = 0 ∧
    (∀ (l : List ℕ) (st0 : VcsState) (k0 : ℕ),
      (vcs_rxn_adj_loop st0 k0 l).1 = 0 ∨
      ∃ (stm : VcsState) (km i : ℕ) (r : ℕ × VcsState),
        rxnAdjBody stm km i = Sum.inr r ∧ vcs_rxn_adj_loop st0 k0 l = r) := by
  have hbody : rxnAdjBody st k irxn
      = Sum.inr ((if (degenStep st irxn k).2 ≠ st.ir irxn then 2 else 1),
          applyElim st irxn (st.ir irxn) (degenStep st irxn k).1
            (degenStep st irxn k).2) := by
    unfold rxnAdjBody
    rw [if_neg h1, if_neg h2, if_neg h3, if_neg (fun hne => hne h4),
      if_pos h5]
  refine ⟨by simp [vcs_rxn_adj_loop, hbody], fun he => ?_, fun hlt => ?_,
    by simp [applyElim], fun l st0 k0 => loop_zero_or_inr l st0 k0⟩
  · rw [if_neg (fun hne => hne he)]
  · rw [if_pos (Nat.ne_of_lt (lt_of_lt_of_le hlt hks))]

/-- C2 witness: at `stC2w` the single reaction takes the elimination
branch, zeroes component 0 (whose bound `3/1` undercuts `n_k = 5`) and
returns code 2 at once. -/
theorem rxn_adj_cg_return_codes_witness :
    vcs_rxn_adj_loop stC2w 0 [0]
      = ((if (degenStep stC2w 0 0).2 ≠ stC2w.ir 0 then 2 else 1),
         applyElim stC2w 0 (stC2w.ir 0) (degenStep stC2w 0 0).1
           (degenStep stC2w 0 0).2) :=
  (rxn_adj_cg_return_codes stC2w 0 0 []
    (by norm_num [stC2w, baseState])
    (by norm_num [stC2w, baseState])
    (by norm_num [stC2w, baseState, VCS_SPECIES_MINOR])
    (by norm_num [idealDiag, stC2w, baseState, List.range_succ])
    (by norm_num [degenStep, degenBoundNeg, stC2w, baseState,
      List.range_succ])
    (by norm_num [stC2w, baseState])).1

/-- Witness state for C9: degenerate branch with `dg > 0`, the
noncomponent species (in a single-species phase) already at zero moles,
and no positively-signed component, so the computed bound `dss` is 0. -/
def stC9w : VcsState :=
  { baseState with
    m_numComponents := 1
    m_numRxnRdc := 1
    NPhase := 2
    nSpecies := 2
    ir := fun _ => 1
    soln := fun _ => 0
    sc := fun _ _ => 0
    dg := fun _ => 1 }

/-- C9: if the degenerate branch computes the bound `dss = 0`, the
iteration applies no update at all: the state is returned untouched (no
mole number, no phase total, no step entry is written), no
basis-disruption code is issued, and the loop proceeds to the next
reaction carrying only the updated scratch variable `k`. -/
theorem degen_zero_bound_no_effect (st : VcsState) (k irxn : ℕ)
    (h1 : ¬ (st.soln (st.ir irxn) = 0 ∧ ¬ st.SSPhase (st.ir irxn)))
    (h2 : ¬ |st.dg irxn| ≤ st.tolmaj2)
    (h3 : ¬ (st.spStatus irxn ≤ VCS_SPECIES_MINOR ∧ st.dg irxn ≥ 0))
    (h4 : idealDiag st irxn = 0)
    (h5 : (degenStep st irxn k).1 = 0) :
    rxnAdjBody st k irxn = Sum.inl (st, (degenStep st irxn k).2) ∧
    ∀ rest, vcs_rxn_adj_loop st k (irxn :: rest)
      = vcs_rxn_adj_loop st (degenStep st irxn k).2 rest := by
  have hbody : rxnAdjBody st k irxn
      = Sum.inl (st, (degenStep st irxn k).2) := by
    unfold rxnAdjBody
    rw [if_neg h1, if_neg h2, if_neg h3, if_neg (fun hne => hne h4),
      if_neg (fun hne => hne h5)]
  exact ⟨hbody, fun rest => by simp [vcs_rxn_adj_loop, hbody]⟩

/-- C9 witness: at `stC9w` the degenerate bound is 0 and the iteration
passes the state through unchanged. -/
theorem degen_zero_bound_no_effect_witness :
    rxnAdjBody stC9w 0 0 = Sum.inl (stC9w, (degenStep stC9w 0 0).2) :=
  (degen_zero_bound_no_effect stC9w 0 0
    (by norm_num [stC9w, baseState])
    (by norm_num [stC9w, baseState])
    (by norm_num [stC9w, baseState, VCS_SPECIES_MINOR])
    (by norm_num [idealDiag, stC9w, baseState, List.range_succ])
    (by norm_num [degenStep, degenBoundPos, stC9w, baseState,
      List.range_succ])).1

/-- Witness state for C10: degenerate branch with `dg < 0` and no
component carrying a negative stoichiometric coefficient. -/
def stC10w : VcsState :=
  { baseState with
    m_numComponents := 1
    m_numRxnRdc := 1
    NPhase := 2
    nSpecies := 2
    ir := fun _ => 1
    soln := fun i => if i = 0 then 7 else if i = 1 then 5 else 0
    sc := fun _ _ => 0
    dg := fun _ => -1
    TPhMoles := fun p => if p = 0 then 7 else if p = 1 then 5 else 0 }

/-- C10: in the degenerate branch with `dg[irxn] < 0`, if no component
has a negative stoichiometric coefficient, then the bound keeps its
initialization `1.0e10` and the species index keeps the incoming value
of the loop-persistent variable `k` (0 at function entry, or the
binding species of an earlier reaction of the same call); consequently a
step of magnitude `1.0e10` is applied and species `k` — unrelated to any
feasibility bound of this reaction — is the one zeroed out. -/
theorem degen_no_negative_coeff_stale (st : VcsState) (k0 irxn : ℕ)
    (h1 : ¬ (st.soln (st.ir irxn) = 0 ∧ ¬ st.SSPhase (st.ir irxn)))
    (h2 : ¬ |st.dg irxn| ≤ st.tolmaj2)
    (h3 : ¬ (st.spStatus irxn ≤ VCS_SPECIES_MINOR ∧ st.dg irxn ≥ 0))
    (h4 : idealDiag st irxn = 0)
    (hdg : st.dg irxn < 0)
    (hnone : ∀ j, j < st.m_numComponents → ¬ st.sc irxn j < 0) :
    degenBoundNeg st irxn k0 = (10000000000, k0) ∧
    rxnAdjBody st k0 irxn
      = Sum.inr ((if k0 ≠ st.ir irxn then 2 else 1),
        applyElim st irxn (st.ir irxn) 10000000000 k0) ∧
    (applyElim st irxn (st.ir irxn) 10000000000 k0).soln k0 = 0 := by
  have hq : degenBoundNeg st irxn k0 = (10000000000, k0) := by
    rw [degenBoundNeg_eq]
    rcases (selMinFold_spec (fun j => -st.soln j / st.sc irxn j)
        (fun j => st.sc irxn j < 0) 10000000000 k0
        st.m_numComponents).2.2 with h | h
    · exact h
    · exact absurd h.2.1 (hnone _ h.1)
  have hstep : degenStep st irxn k0 = (10000000000, k0) := by
    unfold degenStep
    rw [if_neg (lt_asymm hdg), hq]
  refine ⟨hq, ?_, by simp [applyElim]⟩
  unfold rxnAdjBody
  rw [if_neg h1, if_neg h2, if_neg h3, if_neg (fun hne => hne h4), hstep]
  norm_num

/-- C10 witness: at `stC10w` with the entry value `k = 0`, the species
zeroed out is component 0, untouched by any bound of the reaction, and
the applied extent is `1.0e10`. -/
theorem degen_no_negative_coeff_stale_witness :
    rxnAdjBody stC10w 0 0
      = Sum.inr ((if (0 : ℕ) ≠ stC10w.ir 0 then 2 else 1),
        applyElim stC10w 0 (stC10w.ir 0) 10000000000 0) :=
  (degen_no_negative_coeff_stale stC10w 0 0
    (by norm_num [stC10w, baseState])
    (by norm_num [stC10w, baseState])
    (by norm_num [stC10w, baseState, VCS_SPECIES_MINOR])
    (by norm_num [idealDiag, stC10w, baseState, List.range_succ])
    (by norm_num [stC10w, baseState])
    (by intro j hj; norm_num [stC10w, baseState])).2.1

/-- Counterexample state for C4: one component with `sc = -1` and
`soln = 2.0e10`, so the unique feasibility bound `-soln/sc = 2.0e10`
exceeds the loop's initialization value `1.0e10`. -/
def stC4 : VcsState :=
  { baseState with
    m_numComponents := 1
    m_numRxnRdc := 1
    NPhase := 2
    nSpecies := 2
    ir := fun _ => 1
    soln := fun i => if i = 0 then 20000000000 else if i = 1 then 5 else 0
    sc := fun _ j => if j = 0 then -1 else 0
    dg := fun _ => -1
    TPhMoles := fun p =>
      if p = 0 then 20000000000 else if p = 1 then 5 else 0 }

/-- C4 counterexample: at `stC4` the minimum over components with
negative coefficient of `-soln[j]/sc[irxn][j]` equals `2.0e10`, yet the
degenerate branch computes the bound `1.0e10` (its initialization value)
and the run of `vcs_rxn_adj_cg` increases the noncomponent species'
moles by `1.0e10`, not by the claimed minimum. -/
theorem degen_bound_formula_counterexample :
    stC4.dg 0 < 0 ∧
    stC4.m_numComponents = 1 ∧
    stC4.sc 0 0 < 0 ∧
    -stC4.soln 0 / stC4.sc 0 0 = 20000000000 ∧
    idealDiag stC4 0 = 0 ∧
    (degenBoundNeg stC4 0 0).1 = 10000000000 ∧
    (vcs_rxn_adj_cg stC4).2.soln (stC4.ir 0)
      = stC4.soln (stC4.ir 0) + 10000000000 ∧
    (10000000000 : ℚ) ≠ 20000000000 := by
  refine ⟨by norm_num [stC4, baseState], by norm_num [stC4, baseState],
    by norm_num [stC4, baseState], by norm_num [stC4, baseState],
    by norm_num [idealDiag, stC4, baseState, List.range_succ],
    by norm_num [degenBoundNeg, stC4, baseState, List.range_succ],
    ?_, by norm_num⟩
  norm_num [vcs_rxn_adj_cg, vcs_rxn_adj_loop, rxnAdjBody, idealDiag,
    degenStep, degenBoundNeg, applyElim, addMoles, stC4, baseState,
    List.range_succ, Function.update_apply]

/-- C4 amended: in the degenerate branch, when `dg[irxn] > 0` the
applied extent is the negation of
`min(soln[kspec], min over components j with sc[irxn][j] > 0 of
soln[j]/sc[irxn][j])`; when `dg[irxn] ≤ 0` the bound is the minimum of
the initialization value `1.0e10` and the candidates
`-soln[j]/sc[irxn][j]` over components with `sc[irxn][j] < 0` (so a
candidate minimum above `1.0e10` is not attained); in both directions,
when several species tie at the minimal bound the first one in scan
order is the one recorded. -/
theorem degen_bound_formula (st : VcsState) (irxn k0 : ℕ) :
    (st.dg irxn > 0 →
      degenStep st irxn k0
        = (-(degenBoundPos st irxn (st.ir irxn)).1,
           (degenBoundPos st irxn (st.ir irxn)).2)) ∧
    (¬ st.dg irxn > 0 →
      degenStep st irxn k0 = degenBoundNeg st irxn k0) ∧
    ((degenBoundPos st irxn (st.ir irxn)).1 ≤ st.soln (st.ir irxn) ∧
     (∀ j, j < st.m_numComponents → st.sc irxn j > 0 →
       (degenBoundPos st irxn (st.ir irxn)).1
         ≤ st.soln j / st.sc irxn j) ∧
     (degenBoundPos st irxn (st.ir irxn)
         = (st.soln (st.ir irxn), st.ir irxn) ∨
       ((degenBoundPos st irxn (st.ir irxn)).2 < st.m_numComponents ∧
        st.sc irxn (degenBoundPos st irxn (st.ir irxn)).2 > 0 ∧
        st.soln (degenBoundPos st irxn (st.ir irxn)).2
            / st.sc irxn (degenBoundPos st irxn (st.ir irxn)).2
          = (degenBoundPos st irxn (st.ir irxn)).1 ∧
        (degenBoundPos st irxn (st.ir irxn)).1 < st.soln (st.ir irxn) ∧
        ∀ j, j < (degenBoundPos st irxn (st.ir irxn)).2 →
          st.sc irxn j > 0 →
          (degenBoundPos st irxn (st.ir irxn)).1
            < st.soln j / st.sc irxn j))) ∧
    ((degenBoundNeg st irxn k0).1 ≤ 10000000000 ∧
     (∀ j, j < st.m_numComponents → st.sc irxn j < 0 →
       (degenBoundNeg st irxn k0).1 ≤ -st.soln j / st.sc irxn j) ∧
     (degenBoundNeg st irxn k0 = (10000000000, k0) ∨
       ((degenBoundNeg st irxn k0).2 < st.m_numComponents ∧
        st.sc irxn (degenBoundNeg st irxn k0).2 < 0 ∧
        -st.soln (degenBoundNeg st irxn k0).2
            / st.sc irxn (degenBoundNeg st irxn k0).2
          = (degenBoundNeg st irxn k0).1 ∧
        (degenBoundNeg st irxn k0).1 < 10000000000 ∧
        ∀ j, j < (degenBoundNeg st irxn k0).2 → st.sc irxn j < 0 →
          (degenBoundNeg st irxn k0).1 < -st.soln j / st.sc irxn j))) := by
  refine ⟨fun h => by unfold degenStep; rw [if_pos h],
    fun h => by unfold degenStep; rw [if_neg h], ?_, ?_⟩
  · rw [degenBoundPos_eq]
    exact selMinFold_spec _ _ _ _ _
  · rw [degenBoundNeg_eq]
    exact selMinFold_spec _ _ _ _ _

/-- C4 amended witness: concrete instance of the capped bound at
`stC4`. -/
theorem degen_bound_formula_witness :
    (degenBoundNeg stC4 0 0).1 ≤ 10000000000 :=
  (degen_bound_formula stC4 0 0).2.2.2.1

/-- The recomputed sum of the mole numbers of the member species of
phase `p`. -/
def phaseMoles (st : VcsState) (p : ℕ) : ℚ :=
  ∑ i ∈ Finset.range st.nSpecies, if st.PhaseID i = p then st.soln i else 0

/-- The invariant that every phase's stored total `TPhMoles` equals the
sum of its member species' mole numbers. -/
def MoleBalance (st : VcsState) : Prop :=
  ∀ p, p < st.NPhase → st.TPhMoles p = phaseMoles st p

/-- Updating one entry of the species-mole vector shifts the member sum
of the updated species' phase by the difference, and no other phase. -/
theorem sum_update_phase (n : ℕ) (pid : ℕ → ℕ) (f : ℕ → ℚ) (i : ℕ)
    (v : ℚ) (hi : i < n) (p : ℕ) :
    (∑ x ∈ Finset.range n,
        if pid x = p then Function.update f i v x else 0)
      = (∑ x ∈ Finset.range n, if pid x = p then f x else 0)
        + (if pid i = p then v - f i else 0) := by
  have hmem : i ∈ Finset.range n := Finset.mem_range.2 hi
  have key : ∀ x ∈ Finset.range n,
      (if pid x = p then Function.update f i v x else 0)
        = Function.update (fun y => if pid y = p then f y else 0) i
            (if pid i = p then v else 0) x := by
    intro x _
    rcases eq_or_ne x i with rfl | hx
    · simp
    · simp [Function.update_noteq hx]
  rw [Finset.sum_congr rfl key, Finset.sum_update_of_mem hmem,
    ← Finset.add_sum_erase _ _ hmem, Finset.erase_eq]
  by_cases hp : pid i = p <;> (simp [hp]; try ring)

/-- `addMoles` shifts the member sum of the touched species' phase by
exactly the added amount. -/
theorem phaseMoles_addMoles (st : VcsState) (i : ℕ) (delta : ℚ)
    (hi : i < st.nSpecies) (p : ℕ) :
    phaseMoles (addMoles st i delta) p
      = phaseMoles st p + (if st.PhaseID i = p then delta else 0) := by
  show (∑ x ∈ Finset.range st.nSpecies,
      if st.PhaseID x = p
      then Function.update st.soln i (st.soln i + delta) x else 0) = _
  rw [sum_update_phase st.nSpecies st.PhaseID st.soln i
    (st.soln i + delta) hi p]
  by_cases hp : st.PhaseID i = p <;> simp [hp, phaseMoles]

/-- `addMoles` shifts the stored total of the touched species' phase by
exactly the added amount. -/
theorem TPhMoles_addMoles (st : VcsState) (i : ℕ) (delta : ℚ) (p : ℕ) :
    (addMoles st i delta).TPhMoles p
      = st.TPhMoles p + (if st.PhaseID i = p then delta else 0) := by
  show Function.update st.TPhMoles (st.PhaseID i)
      (st.TPhMoles (st.PhaseID i) + delta) p = _
  rcases eq_or_ne (st.PhaseID i) p with h | h
  · subst h; simp
  · simp [Function.update_noteq (Ne.symm h), h]

/-- The paired update of `addMoles` preserves the mole-balance
invariant. -/
theorem addMoles_balance (st : VcsState) (i : ℕ) (delta : ℚ)
    (hi : i < st.nSpecies) (hb : MoleBalance st) :
    MoleBalance (addMoles st i delta) := by
  intro p hp
  have hp2 : p < st.NPhase := hp
  rw [TPhMoles_addMoles, phaseMoles_addMoles st i delta hi p, hb p hp2]

/-- The component loop of the elimination branch preserves the
mole-balance invariant and the index-structure fields. -/
theorem foldl_addMoles_balance (f : ℕ → ℚ) :
    ∀ (l : List ℕ) (acc : VcsState),
      (∀ j ∈ l, j < acc.nSpecies) → MoleBalance acc →
      MoleBalance (l.foldl (fun a j => addMoles a j (f j)) acc) ∧
      (l.foldl (fun a j => addMoles a j (f j)) acc).nSpecies
        = acc.nSpecies ∧
      (l.foldl (fun a j => addMoles a j (f j)) acc).PhaseID
        = acc.PhaseID ∧
      (l.foldl (fun a j => addMoles a j (f j)) acc).NPhase
        = acc.NPhase := by
  intro l
  induction l with
  | nil => intro acc _ hb; exact ⟨hb, rfl, rfl, rfl⟩
  | cons j rest ih =>
    intro acc hmem hb
    have hj : j < acc.nSpecies := hmem j (List.mem_cons_self j rest)
    exact ih (addMoles acc j (f j))
      (fun x hx => hmem x (List.mem_cons_of_mem j hx))
      (addMoles_balance acc j (f j) hj hb)

/-- Zeroing one species' mole entry shifts the member sum of its phase
down by its former value, leaving other phases' sums unchanged. -/
theorem phaseMoles_zero_out (st3 : VcsState) (k : ℕ)
    (hk : k < st3.nSpecies) (p : ℕ) :
    phaseMoles
      { st3 with
        soln := Function.update st3.soln k 0
        TPhMoles := Function.update st3.TPhMoles (st3.PhaseID k) 0 } p
      = phaseMoles st3 p
        + (if st3.PhaseID k = p then 0 - st3.soln k else 0) := by
  show (∑ x ∈ Finset.range st3.nSpecies,
      if st3.PhaseID x = p then Function.update st3.soln k 0 x else 0) = _
  rw [sum_update_phase st3.nSpecies st3.PhaseID st3.soln k 0 hk p]
  rfl

/-- C5 amended: if the mole-balance invariant holds on entry, then after
the degenerate-case elimination update it holds again for every phase
other than the zeroed species' phase; the zeroed species' mole number is
exactly 0; the zeroed species' phase total is set to exactly 0, so for
that phase the invariant survives precisely when its remaining members'
moles sum to zero after the update. -/
theorem applyElim_mole_balance (st : VcsState) (irxn kspec : ℕ)
    (dss : ℚ) (k : ℕ)
    (hb : MoleBalance st)
    (hkspec : kspec < st.nSpecies) (hk : k < st.nSpecies)
    (hcomp : st.m_numComponents ≤ st.nSpecies) :
    (applyElim st irxn kspec dss k).soln k = 0 ∧
    (applyElim st irxn kspec dss k).TPhMoles (st.PhaseID k) = 0 ∧
    (∀ p, p < st.NPhase → p ≠ st.PhaseID k →
      (applyElim st irxn kspec dss k).TPhMoles p
        = phaseMoles (applyElim st irxn kspec dss k) p) ∧
    ((applyElim st irxn kspec dss k).TPhMoles (st.PhaseID k)
        = phaseMoles (applyElim st irxn kspec dss k) (st.PhaseID k)
      ↔ phaseMoles (applyElim st irxn kspec dss k) (st.PhaseID k) = 0) := by
  have hmem : ∀ j ∈ List.range st.m_numComponents,
      j < (addMoles st kspec dss).nSpecies :=
    fun j hj => lt_of_lt_of_le (List.mem_range.1 hj) hcomp
  have hbal : MoleBalance (addMoles st kspec dss) :=
    addMoles_balance st kspec dss hkspec hb
  have hb3 : MoleBalance ((List.range st.m_numComponents).foldl
      (fun acc j => addMoles acc j (dss * st.sc irxn j))
      (addMoles st kspec dss)) :=
    (foldl_addMoles_balance (fun j => dss * st.sc irxn j)
      (List.range st.m_numComponents) (addMoles st kspec dss)
      hmem hbal).1
  have hn3 : ((List.range st.m_numComponents).foldl
      (fun acc j => addMoles acc j (dss * st.sc irxn j))
      (addMoles st kspec dss)).nSpecies = st.nSpecies :=
    (foldl_addMoles_balance (fun j => dss * st.sc irxn j)
      (List.range st.m_numComponents) (addMoles st kspec dss)
      hmem hbal).2.1
  have hpid3 : ((List.range st.m_numComponents).foldl
      (fun acc j => addMoles acc j (dss * st.sc irxn j))
      (addMoles st kspec dss)).PhaseID = st.PhaseID :=
    (foldl_addMoles_balance (fun j => dss * st.sc irxn j)
      (List.range st.m_numComponents) (addMoles st kspec dss)
      hmem hbal).2.2.1
  have hN3 : ((List.range st.m_numComponents).foldl
      (fun acc j => addMoles acc j (dss * st.sc irxn j))
      (addMoles st kspec dss)).NPhase = st.NPhase :=
    (foldl_addMoles_balance (fun j => dss * st.sc irxn j)
      (List.range st.m_numComponents) (addMoles st kspec dss)
      hmem hbal).2.2.2
  simp only [applyElim]
  generalize hg : (List.range st.m_numComponents).foldl
      (fun acc j => addMoles acc j (dss * st.sc irxn j))
      (addMoles st kspec dss) = st3
  rw [hg] at hb3 hn3 hpid3 hN3
  have hk3 : k < st3.nSpecies := by rw [hn3]; exact hk
  have hpidk : st3.PhaseID k = st.PhaseID k := by rw [hpid3]
  refine ⟨?_, ?_, fun p hp hne => ?_, ?_⟩
  · show Function.update st3.soln k 0 k = 0
    exact Function.update_same k 0 st3.soln
  · show Function.update st3.TPhMoles (st3.PhaseID k) 0 (st.PhaseID k) = 0
    rw [hpidk]
    exact Function.update_same _ _ _
  · show Function.update st3.TPhMoles (st3.PhaseID k) 0 p
      = phaseMoles
        { st3 with
          soln := Function.update st3.soln k 0
          TPhMoles := Function.update st3.TPhMoles (st3.PhaseID k) 0 } p
    rw [phaseMoles_zero_out st3 k hk3 p, hpidk,
      Function.update_noteq hne, if_neg (fun hpe => hne hpe.symm),
      add_zero]
    exact hb3 p (by rw [hN3]; exact hp)
  · have h0 : Function.update st3.TPhMoles (st3.PhaseID k) 0
        (st.PhaseID k) = 0 := by
      rw [hpidk]; exact Function.update_same _ _ _
    show Function.update st3.TPhMoles (st3.PhaseID k) 0 (st.PhaseID k)
        = phaseMoles
          { st3 with
            soln := Function.update st3.soln k 0
            TPhMoles := Function.update st3.TPhMoles (st3.PhaseID k) 0 }
          (st.PhaseID k)
      ↔ phaseMoles
          { st3 with
            soln := Function.update st3.soln k 0
            TPhMoles := Function.update st3.TPhMoles (st3.PhaseID k) 0 }
          (st.PhaseID k) = 0
    rw [h0]
    exact eq_comm

/-- Counterexample state for C5: component 0 shares multispecies phase 0
with species 2 (3 moles); the reaction's only stoichiometric coefficient
is 0 and `dg < 0`, so the stale `k = 0` is zeroed out together with the
whole of phase 0's stored total, stranding species 2's moles. -/
def stC5 : VcsState :=
  { baseState with
    m_numComponents := 1
    m_numRxnRdc := 1
    NPhase := 2
    nSpecies := 3
    ir := fun _ => 1
    soln := fun i => if i = 0 then 4 else if i = 1 then 5 else 3
    sc := fun _ _ => 0
    dg := fun _ => -1
    SSPhase := fun i => i = 1
    phaseSingleSpecies := fun p => p = 1
    TPhMoles := fun p => if p = 0 then 7 else if p = 1 then 5 else 0
    PhaseID := fun i => if i = 1 then 1 else 0 }

/-- C5 counterexample: the mole-balance invariant holds on entry at
`stC5`, the elimination update is applied (return code 2), yet
afterwards phase 0's stored total is 0 while its member species' moles
sum to 3. -/
theorem mole_balance_counterexample :
    (∀ p, p < stC5.NPhase → stC5.TPhMoles p = phaseMoles stC5 p) ∧
    (vcs_rxn_adj_cg stC5).1 = 2 ∧
    (vcs_rxn_adj_cg stC5).2.TPhMoles 0 = 0 ∧
    phaseMoles (vcs_rxn_adj_cg stC5).2 0 = 3 ∧
    ((0 : ℚ) = 3 → False) := by
  refine ⟨?_, ?_, ?_, ?_, by norm_num⟩
  · intro p hp
    have hp2 : p < 2 := hp
    interval_cases p <;>
      norm_num [phaseMoles, stC5, baseState, Finset.sum_range_succ]
  · norm_num [vcs_rxn_adj_cg, vcs_rxn_adj_loop, rxnAdjBody, idealDiag,
      degenStep, degenBoundNeg, applyElim, addMoles, stC5, baseState,
      List.range_succ, Function.update_apply]
  · norm_num [vcs_rxn_adj_cg, vcs_rxn_adj_loop, rxnAdjBody, idealDiag,
      degenStep, degenBoundNeg, applyElim, addMoles, stC5, baseState,
      List.range_succ, Function.update_apply]
  · norm_num [vcs_rxn_adj_cg, vcs_rxn_adj_loop, rxnAdjBody, idealDiag,
      degenStep, degenBoundNeg, applyElim, addMoles, phaseMoles, stC5,
      baseState, List.range_succ, Function.update_apply,
      Finset.sum_range_succ]

/-- Witness state for the amended C5 (scenario-C data). -/
def stC5w : VcsState :=
  { baseState with
    m_numComponents := 1
    m_numRxnRdc := 1
    NPhase := 2
    nSpecies := 2
    ir := fun _ => 1
    soln := fun i => if i = 0 then 3 else if i = 1 then 5 else 0
    sc := fun _ j => if j = 0 then -1 else 0
    dg := fun _ => -1
    TPhMoles := fun p => if p = 0 then 3 else if p = 1 then 5 else 0 }

/-- C5 amended witness: at `stC5w` the zeroed species 0 ends at exactly
0 moles. -/
theorem applyElim_mole_balance_witness :
    (applyElim stC5w 0 1 3 0).soln 0 = 0 :=
  (applyElim_mole_balance stC5w 0 1 3 0
    (by
      intro p hp
      have hp2 : p < 2 := hp
      interval_cases p <;>
        norm_num [phaseMoles, stC5w, baseState, Finset.sum_range_succ])
    (by norm_num [stC5w, baseState])
    (by norm_num [stC5w, baseState])
    (by norm_num [stC5w, baseState])).1

/-- Witness state for C7: single converged reaction (`dg = 0`, tolerance
`1/2`) whose step entry `ds` holds the stale value `1/2` on entry. -/
def stC7 : VcsState :=
  { baseState with
    m_numRxnRdc := 1
    NPhase := 2
    nSpecies := 2
    ir := fun _ => 1
    soln := fun i => if i = 1 then 5 else 0
    ds := fun i => if i = 1 then 1/2 else 0
    dg := fun _ => 0 }

/-- C7 counterexample: at `stC7` the single reaction is converged
(`|dg| ≤ tolmaj2`), yet after calling `vcs_rxn_adj_cg` twice the step
entry for the reaction's species is still the stale entry value `1/2`,
not zero: the skip branch writes nothing. -/
theorem skip_converged_counterexample :
    |stC7.dg 0| ≤ stC7.tolmaj2 ∧
    stC7.ds (stC7.ir 0) = 1/2 ∧
    (vcs_rxn_adj_cg stC7).2.ds (stC7.ir 0) = 1/2 ∧
    (vcs_rxn_adj_cg (vcs_rxn_adj_cg stC7).2).2.ds (stC7.ir 0) = 1/2 ∧
    ((1/2 : ℚ) = 0 → False) := by
  refine ⟨by norm_num [stC7, baseState], by norm_num [stC7, baseState],
    ?_, ?_, by norm_num⟩ <;>
  norm_num [vcs_rxn_adj_cg, vcs_rxn_adj_loop, rxnAdjBody, stC7,
    baseState, List.range_succ]

/-- C7 amended: on a state where every reaction is converged
(`|dg| ≤ tolmaj2`, with the species not in the dead multispecies-phase
branch), `vcs_rxn_adj_cg` returns code 0 with the state — in particular
the whole `ds` array — completely unchanged, and calling it twice in a
row therefore gives the identical result both times; the steps are zero
after the calls only if their entry values were zero. -/
theorem skip_converged_no_write (st : VcsState)
    (h : ∀ i, i < st.m_numRxnRdc →
      ¬ (st.soln (st.ir i) = 0 ∧ ¬ st.SSPhase (st.ir i)) ∧
      |st.dg i| ≤ st.tolmaj2) :
    vcs_rxn_adj_cg st = (0, st) ∧
    vcs_rxn_adj_cg (vcs_rxn_adj_cg st).2 = (0, st) ∧
    (vcs_rxn_adj_cg st).2.ds = st.ds := by
  have hloop : ∀ (l : List ℕ), (∀ i ∈ l, i < st.m_numRxnRdc) → ∀ k,
      vcs_rxn_adj_loop st k l = (0, st) := by
    intro l
    induction l with
    | nil => intro _ k; rfl
    | cons i rest ih =>
      intro hmem k
      have hi := hmem i (List.mem_cons_self i rest)
      have hbody : rxnAdjBody st k i = Sum.inl (st, k) := by
        unfold rxnAdjBody
        rw [if_neg (h i hi).1, if_pos (h i hi).2]
      simp [vcs_rxn_adj_loop, hbody,
        ih (fun x hx => hmem x (List.mem_cons_of_mem i hx)) k]
  have h1 : vcs_rxn_adj_cg st = (0, st) :=
    hloop (List.range st.m_numRxnRdc) (fun i hi => List.mem_range.1 hi) 0
  refine ⟨h1, ?_, by rw [h1]⟩
  rw [h1]
  exact h1

/-- Witness state for the amended C7. -/
def stC7w : VcsState :=
  { baseState with
    m_numRxnRdc := 1
    NPhase := 2
    nSpecies := 2
    ir := fun _ => 1
    soln := fun i => if i = 1 then 5 else 0
    ds := fun i => if i = 1 then 1/2 else 0
    dg := fun _ => 0 }

/-- C7 amended witness: at `stC7w` the call returns `(0, stC7w)`
unchanged. -/
theorem skip_converged_no_write_witness :
    vcs_rxn_adj_cg stC7w = (0, stC7w) :=
  (skip_converged_no_write stC7w (by
    intro i hi
    have hi2 : i < 1 := hi
    rcases Nat.lt_one_iff.1 hi2 with rfl
    exact ⟨by norm_num [stC7w, baseState], by norm_num [stC7w, baseState]⟩)).1

/-- C6: when the proposed step opposes the sign of the baseline deltaG
(so none of the early rejections fire), the full-step deltaG has
magnitude below 80% of the baseline magnitude and the two values differ
in sign, the line search returns the interpolated step
`-deltaGOrig / slope` with `slope = (deltaG1 - deltaGOrig) / dx_orig`. -/
theorem line_search_interpolates (g : ℚ → ℚ) (dx_orig : ℚ)
    (hdir : g 0 * dx_orig < 0)
    (hmag : |g dx_orig| < (8/10) * |g 0|)
    (hsign : g dx_orig * g 0 < 0) :
    vcs_line_search g dx_orig = -(g 0) / ((g dx_orig - g 0) / dx_orig) := by
  have h1 : ¬ (g 0 > 0 ∧ dx_orig > 0) := by
    rintro ⟨a, b⟩; nlinarith
  have h2 : ¬ (g 0 < 0 ∧ dx_orig < 0) := by
    rintro ⟨a, b⟩; nlinarith
  have h3 : g 0 ≠ 0 := by
    intro a; rw [a] at hdir; simp at hdir
  have h4 : dx_orig ≠ 0 := by
    intro a; rw [a] at hdir; simp at hdir
  have h5 : ¬ (g dx_orig * g 0 > 0) := by linarith
  have h6 : |g dx_orig| < (8/10) * (|g 0| + 1/1000000000000000) := by
    nlinarith [abs_nonneg (g 0)]
  unfold vcs_line_search
  rw [if_neg h1, if_neg h2, if_neg h3, if_neg h4, if_neg h5, if_pos h6,
    if_pos hsign]

/-- The free-energy oracle of the C6 witness: baseline deltaG `1.0`,
full-step deltaG `-0.5`. -/
def gC6 : ℚ → ℚ := fun x => if x = 0 then 1 else -(1/2)

/-- C6 witness: with `deltaGOrig = 1.0`, `deltaG1 = -0.5` and the
proposed step `-3`, the line search returns
`-3 / 1.5 = -2`. -/
theorem line_search_interpolates_witness :
    vcs_line_search gC6 (-3) = (-3) / (15/10) := by
  have h := line_search_interpolates gC6 (-3)
    (by norm_num [gC6]) (by norm_num [gC6, abs_of_pos]) (by norm_num [gC6])
  rw [h]; norm_num [gC6]

end VCSnonideal
